import Mathlib

/-!
Verification of the AUB registrar server (`server.py`).

The development shallowly embeds the server's pure logic and its
SQLite-backed request handlers.  The database is modelled as an explicit
`Store` value (tables as lists of rows); each request handler is a pure
function from a store and request data to a result and an updated store.
Python strings are modelled as `String`, with all character-level work done
on `String.toList` so that every definition evaluates by kernel reduction.
`datetime.strptime(_, "%H:%M")` accepts one or two digits for the hour and
for the minute, a single colon between them and nothing else, and range
checks hour ≤ 23 and minute ≤ 59; it is modelled accordingly.
-/

namespace Registrar

/-- Characters Python's `str.split()` (no separator) splits on,
restricted to the ASCII whitespace characters. -/
def pyIsSpace (c : Char) : Bool :=
  c = ' ' || c = '\t' || c = '\n' || c = '\r' || c = '\x0b' || c = '\x0c'

/-- Split a character list at every character satisfying `p`, keeping empty
groups, as Python's `str.split(sep)` does for a single-character `sep`. -/
def splitPred (p : Char → Bool) : List Char → List (List Char)
  | [] => [[]]
  | c :: cs =>
    match splitPred p cs with
    | [] => [[]]
    | g :: gs => if p c then [] :: g :: gs else (c :: g) :: gs

/-- Python's `str.split(sep)` for a single-character separator. -/
def splitOnChar (sep : Char) (l : List Char) : List (List Char) :=
  splitPred (fun c => c = sep) l

/-- Python's `str.split()` with no separator: split on whitespace runs and
drop empty fields. -/
def pySplit (l : List Char) : List (List Char) :=
  (splitPred pyIsSpace l).filter (fun g => g ≠ [])

/-- Numeric value of a list of decimal digit characters. -/
def digitsToNat (l : List Char) : Nat :=
  l.foldl (fun a c => a * 10 + (c.toNat - 48)) 0

/-- Model of `datetime.strptime(t, "%H:%M")`, returning the hour and minute:
one or two digits for each component, separated by one colon, hour at most
23 and minute at most 59, nothing else in the string. -/
def strptimeHM (l : List Char) : Option (Nat × Nat) :=
  match splitOnChar ':' l with
  | [h, m] =>
    if 1 ≤ h.length ∧ h.length ≤ 2 ∧ 1 ≤ m.length ∧ m.length ≤ 2
        ∧ h.all Char.isDigit = true ∧ m.all Char.isDigit = true
        ∧ digitsToNat h ≤ 23 ∧ digitsToNat m ≤ 59 then
      some (digitsToNat h, digitsToNat m)
    else none
  | _ => none

/-- The weekday alphabet `valid_days = "MTWRFSU"` of `parse_schedule`. -/
def valid_days : List Char := ['M', 'T', 'W', 'R', 'F', 'S', 'U']

/-- A parsed schedule: the set of weekday letters plus the start and end
minutes of day, as produced by `parse_schedule` (server.py lines 88-121). -/
abbrev CanonSchedule := Finset Char × Nat × Nat

/-- Model of `parse_schedule` (server.py lines 88-121): split the string into
exactly two whitespace-separated fields, uppercase the day field and require
every letter to come from `valid_days`, split the time field at `-` into
exactly two endpoints, parse both with `strptime(_, "%H:%M")`, and require
the start minute to be strictly below the end minute. -/
def parse_schedule (schedule_str : String) : Option CanonSchedule :=
  match pySplit schedule_str.toList with
  | [days_str, time_str] =>
    let days := days_str.map Char.toUpper
    if days.all (fun c => valid_days.contains c) = true then
      match splitOnChar '-' time_str with
      | [t1, t2] =>
        match strptimeHM t1, strptimeHM t2 with
        | some (h1, m1), some (h2, m2) =>
          let start_minutes := h1 * 60 + m1
          let end_minutes := h2 * 60 + m2
          if start_minutes ≥ end_minutes then none
          else some (days.toFinset, start_minutes, end_minutes)
        | _, _ => none
      | _ => none
    else none
  | _ => none

/-- The overlap test of `check_schedule_overlap` on two already parsed
schedules (server.py lines 131-143): no common day means no overlap,
otherwise the windows overlap iff `max start1 start2 < min end1 end2`. -/
def overlaps (a b : CanonSchedule) : Bool :=
  if a.1 ∩ b.1 = ∅ then false
  else if max a.2.1 b.2.1 < min a.2.2 b.2.2 then true
  else false

/-- Model of `check_schedule_overlap` (server.py lines 123-143): parse both
strings; if either fails to parse the schedules are declared non-overlapping. -/
def check_schedule_overlap (schedule1_str schedule2_str : String) : Bool :=
  match parse_schedule schedule1_str, parse_schedule schedule2_str with
  | some p1, some p2 => overlaps p1 p2
  | _, _ => false

/-! ## The store

The four SQLite tables of `init_db` (server.py lines 24-76), modelled as
lists of rows.  `admins` rows are (username, password_hash) pairs,
`registrations` rows are (student_username, course_name) pairs.  The schema
declares `courses.name`, `students.username` and `admins.username` as
primary keys and `(student_username, course_name)` as the registrations
primary key; `SchemaWF` states the resulting uniqueness. -/

/-- A row of the `courses` table. -/
structure Course where
  name : String
  schedule : String
  capacity : Int
deriving DecidableEq

/-- A row of the `students` table. -/
structure Student where
  username : String
  fullname : String
  password_hash : String
deriving DecidableEq

/-- The database state: the four tables of `init_db`. -/
structure Store where
  admins : List (String × String)
  students : List Student
  courses : List Course
  regs : List (String × String)
deriving DecidableEq

/-- Uniqueness enforced by the SQLite primary keys of the schema. -/
def SchemaWF (st : Store) : Prop :=
  (st.courses.map Course.name).Nodup
    ∧ (st.students.map Student.username).Nodup
    ∧ st.regs.Nodup

instance (st : Store) : Decidable (SchemaWF st) :=
  inferInstanceAs (Decidable ((st.courses.map Course.name).Nodup
    ∧ (st.students.map Student.username).Nodup ∧ st.regs.Nodup))

/-- `MAX_COURSES_PER_STUDENT = 5` (server.py line 16). -/
def MAX_COURSES_PER_STUDENT : Nat := 5

/-- Number of registration rows for a course, as computed by
`COUNT(r.course_name)` in the joined queries. -/
def regCount (st : Store) (course_name : String) : Nat :=
  (st.regs.filter (fun r => r.2 = course_name)).length

/-- The `remaining_seats` column of the course query in
`handle_register_course`: capacity minus current registration count. -/
def remaining_seats (st : Store) (c : Course) : Int :=
  c.capacity - (regCount st c.name : Int)

/-- Row lookup `SELECT ... FROM courses WHERE name = ?` (primary key). -/
def findCourse (st : Store) (course_name : String) : Option Course :=
  st.courses.find? (fun c => c.name = course_name)

/-- The `ORDER BY c.name` comparison: SQLite orders TEXT by bytes, which for
these strings is the lexicographic order on their characters. -/
def courseLe (a b : Course) : Prop :=
  a.name.toList ≤ b.name.toList

instance : DecidableRel courseLe :=
  fun a b => inferInstanceAs (Decidable (a.name.toList ≤ b.name.toList))

instance : IsTrans Course courseLe :=
  ⟨fun _ _ _ h1 h2 => le_trans h1 h2⟩

instance : IsTotal Course courseLe :=
  ⟨fun a b => le_total a.name.toList b.name.toList⟩

/-- Model of `get_student_registered_courses` (server.py lines 230-239):
the courses joined to the student's registrations, in ascending order of
course name (`ORDER BY c.name`).  The join on the registrations primary key
yields one row per registered course. -/
def get_student_registered_courses (st : Store) (student_username : String) :
    List Course :=
  List.insertionSort courseLe
    (st.courses.filter (fun c => decide ((student_username, c.name) ∈ st.regs)))

/-! ## Request data and handler results

Each handler reads its inputs from the request's `data` dictionary via
`data.get(...)`; a missing or empty string field is falsy in Python, so
absent string fields are modelled as `""`.  `capacity` is `None` when
absent; a well-formed client sends an integer, modelled as `Option Int`
(the `int(...)` conversion is the identity on it). -/

/-- The `data` object of a request. -/
structure ReqData where
  username : String := ""
  password : String := ""
  name : String := ""
  course_name : String := ""
  schedule : String := ""
  capacity : Option Int := none
deriving DecidableEq

/-- The distinguishable outcomes of `handle_register_course`, one per
distinct response message. -/
inductive EnrollResult where
  | missingField
  | notFound
  | full
  | alreadyRegistered
  | limitExceeded
  | scheduleConflict (name schedule : String)
  | ok
deriving DecidableEq

/-- Model of `handle_register_course` (server.py lines 258-312).  The checks
run in source order: course existence, remaining seats, duplicate
registration, per-student limit, then the schedule-conflict loop over the
student's registered courses in ascending name order; if all pass, the
registration row is inserted. -/
def handle_register_course (st : Store) (data : ReqData)
    (student_username : String) : EnrollResult × Store :=
  if data.course_name = "" then (.missingField, st)
  else
    match findCourse st data.course_name with
    | none => (.notFound, st)
    | some course =>
      if remaining_seats st course ≤ 0 then (.full, st)
      else if (student_username, data.course_name) ∈ st.regs then
        (.alreadyRegistered, st)
      else if MAX_COURSES_PER_STUDENT
          ≤ (get_student_registered_courses st student_username).length then
        (.limitExceeded, st)
      else
        match (get_student_registered_courses st student_username).find?
            (fun rc => check_schedule_overlap course.schedule rc.schedule) with
        | some rc => (.scheduleConflict rc.name rc.schedule, st)
        | none =>
          (.ok, { st with regs := st.regs ++ [(student_username, data.course_name)] })

/-- The distinguishable outcomes of `handle_withdraw_course`. -/
inductive WithdrawResult where
  | missingField
  | notRegistered
  | ok
deriving DecidableEq

/-- Model of `handle_withdraw_course` (server.py lines 315-339): fail unless
the registration row exists, else `DELETE` exactly the rows matching both
the student and the course. -/
def handle_withdraw_course (st : Store) (data : ReqData)
    (student_username : String) : WithdrawResult × Store :=
  if data.course_name = "" then (.missingField, st)
  else if (student_username, data.course_name) ∈ st.regs then
    (.ok, { st with
      regs := st.regs.filter (fun r => decide (r ≠ (student_username, data.course_name))) })
  else (.notRegistered, st)

/-- The distinguishable outcomes of `handle_create_course`. -/
inductive CreateResult where
  | missingField
  | invalidCapacity
  | invalidSchedule
  | alreadyExists
  | ok
deriving DecidableEq

/-- Model of `handle_create_course` (server.py lines 342-375), in source
order: missing-field check, capacity positivity, schedule parse, duplicate
name, then the insert. -/
def handle_create_course (st : Store) (data : ReqData) : CreateResult × Store :=
  match data.capacity with
  | none => (.missingField, st)
  | some capacity =>
    if data.name = "" ∨ data.schedule = "" then (.missingField, st)
    else if capacity ≤ 0 then (.invalidCapacity, st)
    else if (parse_schedule data.schedule).isNone then (.invalidSchedule, st)
    else if (findCourse st data.name).isSome then (.alreadyExists, st)
    else
      (.ok, { st with
        courses := st.courses ++ [⟨data.name, data.schedule, capacity⟩] })

/-- The distinguishable outcomes of `handle_update_course`. -/
inductive UpdateResult where
  | missingField
  | notFound
  | notIncreasing
  | ok
deriving DecidableEq

/-- Model of `handle_update_course` (server.py lines 378-408): look up the
course, require the new capacity to strictly exceed the current one, then
`UPDATE` the capacity of every row with that name. -/
def handle_update_course (st : Store) (data : ReqData) : UpdateResult × Store :=
  match data.capacity with
  | none => (.missingField, st)
  | some new_capacity =>
    if data.name = "" then (.missingField, st)
    else
      match findCourse st data.name with
      | none => (.notFound, st)
      | some course =>
        if new_capacity ≤ course.capacity then (.notIncreasing, st)
        else
          (.ok, { st with
            courses := st.courses.map (fun c =>
              if c.name = data.name then { c with capacity := new_capacity } else c) })

/-- The distinguishable outcomes of `handle_add_student`. -/
inductive AddStudentResult where
  | missingField
  | alreadyExists
  | ok
deriving DecidableEq

/-- Model of `handle_add_student` (server.py lines 411-435).  The password
hash function is a parameter (the source uses SHA-256). -/
def handle_add_student (hash : String → String) (st : Store) (data : ReqData) :
    AddStudentResult × Store :=
  if data.name = "" ∨ data.username = "" ∨ data.password = "" then
    (.missingField, st)
  else if ((st.students.find? (fun s => s.username = data.username)).isSome) then
    (.alreadyExists, st)
  else
    (.ok, { st with
      students := st.students ++ [⟨data.username, data.name, hash data.password⟩] })

/-- The distinguishable outcomes of the two login handlers. -/
inductive LoginResult where
  | missingField
  | invalidCredentials
  | ok
deriving DecidableEq

/-- Model of `handle_login_student` (server.py lines 188-201); read-only. -/
def handle_login_student (hash : String → String) (st : Store)
    (data : ReqData) : LoginResult :=
  if data.username = "" ∨ data.password = "" then .missingField
  else
    match st.students.find? (fun s => s.username = data.username) with
    | some s => if s.password_hash = hash data.password then .ok else .invalidCredentials
    | none => .invalidCredentials

/-- Model of `handle_login_admin` (server.py lines 203-216); read-only. -/
def handle_login_admin (hash : String → String) (st : Store)
    (data : ReqData) : LoginResult :=
  if data.username = "" ∨ data.password = "" then .missingField
  else
    match st.admins.find? (fun a => a.1 = data.username) with
    | some a => if a.2 = hash data.password then .ok else .invalidCredentials
    | none => .invalidCredentials

/-! ## The per-connection session state machine

`handle_client` (server.py lines 439-538) keeps `is_authenticated`,
`user_type` and `username` per connection and dispatches each request on the
action string.  After a successful logout the loop breaks and the connection
is closed; that terminal situation is the `closed` state (the spec's
`Closed`), from which no further request is processed. -/

/-- The role carried by `user_type`. -/
inductive Role where
  | student
  | admin
deriving DecidableEq

/-- The per-connection session state. -/
inductive SessState where
  | unauth
  | auth (role : Role) (username : String)
  | closed
deriving DecidableEq

/-- The response sent back for one request, abstracted to its handler
outcome; read-only listing successes carry no modelled payload. -/
inductive Resp where
  | login (r : LoginResult)
  | authRequired
  | invalidActionStudent
  | invalidActionAdmin
  | courseList
  | register (r : EnrollResult)
  | withdraw (r : WithdrawResult)
  | create (r : CreateResult)
  | update (r : UpdateResult)
  | addStudent (r : AddStudentResult)
  | loggedOut
deriving DecidableEq

/-- Whether the response's `status` field is `"success"`. -/
def Resp.isSuccess : Resp → Bool
  | .login r => r = .ok
  | .authRequired => false
  | .invalidActionStudent => false
  | .invalidActionAdmin => false
  | .courseList => true
  | .register r => r = .ok
  | .withdraw r => r = .ok
  | .create r => r = .ok
  | .update r => r = .ok
  | .addStudent r => r = .ok
  | .loggedOut => true

/-- One iteration of the `handle_client` request loop: given the shared
store, the session state and one decoded request, produce the updated
store, the next session state, the response, and whether the connection is
then torn down (the `break` after a successful logout).  `none` when the
session is already closed: no further request is processed.  The code
clears `is_authenticated` on logout and then breaks out of the loop,
closing the connection; that is the transition to `closed`. -/
def handle_client_step (hash : String → String) (st : Store) (ss : SessState)
    (action : String) (data : ReqData) : Option (Store × SessState × Resp × Bool) :=
  match ss with
  | .closed => none
  | .unauth =>
    if action = "login_student" then
      let r := handle_login_student hash st data
      some (st, if r = .ok then .auth .student data.username else .unauth, .login r, false)
    else if action = "login_admin" then
      let r := handle_login_admin hash st data
      some (st, if r = .ok then .auth .admin data.username else .unauth, .login r, false)
    else some (st, .unauth, .authRequired, false)
  | .auth .student u =>
    if action = "list_courses_student" then some (st, .auth .student u, .courseList, false)
    else if action = "register_course" then
      let r := handle_register_course st data u
      some (r.2, .auth .student u, .register r.1, false)
    else if action = "withdraw_course" then
      let r := handle_withdraw_course st data u
      some (r.2, .auth .student u, .withdraw r.1, false)
    else if action = "my_courses" then some (st, .auth .student u, .courseList, false)
    else if action = "logout" then some (st, .closed, .loggedOut, true)
    else some (st, .auth .student u, .invalidActionStudent, false)
  | .auth .admin u =>
    if action = "list_courses_admin" then some (st, .auth .admin u, .courseList, false)
    else if action = "create_course" then
      let r := handle_create_course st data
      some (r.2, .auth .admin u, .create r.1, false)
    else if action = "update_course" then
      let r := handle_update_course st data
      some (r.2, .auth .admin u, .update r.1, false)
    else if action = "add_student" then
      let r := handle_add_student hash st data
      some (r.2, .auth .admin u, .addStudent r.1, false)
    else if action = "logout" then some (st, .closed, .loggedOut, true)
    else some (st, .auth .admin u, .invalidActionAdmin, false)

/-- The actions `handle_client` accepts for a student session. -/
def studentActions : List String :=
  ["list_courses_student", "register_course", "withdraw_course", "my_courses", "logout"]

/-- The actions `handle_client` accepts for an admin session. -/
def adminActions : List String :=
  ["list_courses_admin", "create_course", "update_course", "add_student", "logout"]

/-! ## Invariants I1-I5 (spec section 3) -/

/-- I1: no course has more registrations than its capacity. -/
def I1 (st : Store) : Prop :=
  ∀ c ∈ st.courses, (regCount st c.name : Int) ≤ c.capacity

instance (st : Store) : Decidable (I1 st) :=
  List.decidableBAll _ st.courses

/-- I2: no (student, course) pair appears twice among the registrations. -/
def I2 (st : Store) : Prop :=
  st.regs.Nodup

/-- I3: no student holds more than `MAX_COURSES_PER_STUDENT` registrations. -/
def I3 (st : Store) : Prop :=
  ∀ s : String,
    (st.regs.filter (fun r => r.1 = s)).length ≤ MAX_COURSES_PER_STUDENT

/-- I4: no two distinct courses registered by one student have overlapping
schedules (as decided by `check_schedule_overlap` on their stored
descriptors). -/
def I4 (st : Store) : Prop :=
  ∀ s : String, ∀ c1 ∈ st.courses, ∀ c2 ∈ st.courses,
    c1.name ≠ c2.name → (s, c1.name) ∈ st.regs → (s, c2.name) ∈ st.regs →
    check_schedule_overlap c1.schedule c2.schedule = false

/-- I5: every registration references an existing student and course. -/
def I5 (st : Store) : Prop :=
  ∀ r ∈ st.regs,
    (∃ s ∈ st.students, s.username = r.1) ∧ (∃ c ∈ st.courses, c.name = r.2)

/-- All five invariants together. -/
def Invariants (st : Store) : Prop :=
  I1 st ∧ I2 st ∧ I3 st ∧ I4 st ∧ I5 st

/-! ## Sequences of enrollment-affecting operations (claim C3) -/

/-- An enroll or withdraw request, as issued by an authenticated student
session. -/
inductive Op where
  | enroll (student course : String)
  | withdraw (student course : String)
deriving DecidableEq

/-- Apply one operation's store effect. -/
def applyOp (st : Store) : Op → Store
  | .enroll s cn => (handle_register_course st { course_name := cn } s).2
  | .withdraw s cn => (handle_withdraw_course st { course_name := cn } s).2

/-- Apply a sequence of operations left to right. -/
def applyOps (st : Store) (ops : List Op) : Store :=
  ops.foldl applyOp st

/-- The student issuing an enroll is an authenticated account, which the
session layer guarantees (`handle_register_course` is reachable only from a
logged-in student session). -/
def OpAuthorized (st : Store) : Op → Prop
  | .enroll s _ => ∃ stu ∈ st.students, stu.username = s
  | .withdraw _ _ => True

/-! ## The last-seat race (claim C2)

`db_execute` (server.py lines 148-183) takes `db_lock` only when
`commit=True`, i.e. only for the single `INSERT`; every read in
`handle_register_course` is its own unlocked SQLite query.  One enroll is
therefore two separately atomic events: the check sequence (reads) and the
insert (write).  The race model interleaves two such sessions against the
shared store. -/

/-- Where a session is in its enroll call: before the checks, after the
checks with their outcome, or finished with the success flag of its
response. -/
inductive Phase where
  | ready
  | checked (r : EnrollResult)
  | finished (success : Bool)
deriving DecidableEq

/-- Two concurrent sessions sharing one store. -/
structure RaceState where
  store : Store
  phaseA : Phase
  phaseB : Phase
deriving DecidableEq

/-- The checks of `handle_register_course` as one atomic read event: the
decision the session reaches from the store it observes. -/
def enrollCheck (st : Store) (s cn : String) : EnrollResult :=
  (handle_register_course st { course_name := cn } s).1

/-- The `INSERT INTO registrations` as one atomic write event (the only one
guarded by `db_lock`).  The table's primary key rejects a duplicate pair,
in which case `db_execute` reports failure and the handler answers with a
database error. -/
def enrollInsert (st : Store) (s cn : String) : Store × Bool :=
  if (s, cn) ∈ st.regs then (st, false)
  else ({ st with regs := st.regs ++ [(s, cn)] }, true)

/-- Advance one session by one atomic event. -/
def stepSession (s cn : String) (store : Store) : Phase → Phase × Store
  | .ready => (.checked (enrollCheck store s cn), store)
  | .checked r =>
    if r = .ok then
      let ins := enrollInsert store s cn
      (.finished ins.2, ins.1)
    else (.finished false, store)
  | .finished b => (.finished b, store)

/-- Schedule one step: `false` advances session A, `true` advances session B. -/
def raceStep (sA sB cn : String) (rs : RaceState) (who : Bool) : RaceState :=
  if who then
    let p := stepSession sB cn rs.store rs.phaseB
    { rs with store := p.2, phaseB := p.1 }
  else
    let p := stepSession sA cn rs.store rs.phaseA
    { rs with store := p.2, phaseA := p.1 }

/-- Run a whole interleaving. -/
def raceRun (sA sB cn : String) (sched : List Bool) (rs : RaceState) : RaceState :=
  sched.foldl (raceStep sA sB cn) rs

/-- The spec's race scenario: offering CS101 with capacity 1 and no
registrations, two authenticated students. -/
def raceStore : Store :=
  { admins := [("admin", "h0")]
    students := [⟨"alice", "Alice", "h1"⟩, ⟨"bob", "Bob", "h2"⟩]
    courses := [⟨"CS101", "MWF 10:00-11:00", 1⟩]
    regs := [] }

/-! ## Lemmas about the schedule logic -/

theorem overlaps_comm (a b : CanonSchedule) : overlaps a b = overlaps b a := by
  have hinter : (a.1 ∩ b.1 = ∅) ↔ (b.1 ∩ a.1 = ∅) := by rw [Finset.inter_comm]
  by_cases h : b.1 ∩ a.1 = ∅
  · simp [overlaps, h, hinter.mpr h]
  · have h' : ¬ a.1 ∩ b.1 = ∅ := fun hh => h (hinter.mp hh)
    simp [overlaps, h, h', max_comm a.2.1, min_comm a.2.2]

theorem check_schedule_overlap_comm (s1 s2 : String) :
    check_schedule_overlap s1 s2 = check_schedule_overlap s2 s1 := by
  unfold check_schedule_overlap
  cases parse_schedule s1 <;> cases parse_schedule s2 <;> simp [overlaps_comm]

theorem overlaps_true_iff (a b : CanonSchedule) :
    overlaps a b = true ↔ (a.1 ∩ b.1).Nonempty ∧ max a.2.1 b.2.1 < min a.2.2 b.2.2 := by
  unfold overlaps
  by_cases h : a.1 ∩ b.1 = ∅
  · simp [h, Finset.nonempty_iff_ne_empty]
  · by_cases h2 : max a.2.1 b.2.1 < min a.2.2 b.2.2 <;>
      simp [h, h2, Finset.nonempty_iff_ne_empty]

theorem strptimeHM_le {l : List Char} {h m : Nat}
    (hp : strptimeHM l = some (h, m)) : h ≤ 23 ∧ m ≤ 59 := by
  unfold strptimeHM at hp
  split at hp
  · split at hp
    · rename_i hcond
      injection hp with hp'
      cases hp'
      exact ⟨hcond.2.2.2.2.2.2.1, hcond.2.2.2.2.2.2.2⟩
    · exact absurd hp (by simp)
  · exact absurd hp (by simp)

theorem parse_schedule_eq_some_iff (s : String) (d : Finset Char) (stm enm : Nat) :
    parse_schedule s = some (d, stm, enm) ↔
    ∃ ds ts t1 t2 hh1 mm1 hh2 mm2,
      pySplit s.toList = [ds, ts]
      ∧ ((ds.map Char.toUpper).all fun c => valid_days.contains c) = true
      ∧ splitOnChar '-' ts = [t1, t2]
      ∧ strptimeHM t1 = some (hh1, mm1)
      ∧ strptimeHM t2 = some (hh2, mm2)
      ∧ hh1 * 60 + mm1 < hh2 * 60 + mm2
      ∧ d = (ds.map Char.toUpper).toFinset
      ∧ stm = hh1 * 60 + mm1 ∧ enm = hh2 * 60 + mm2 := by
  constructor
  · intro hp
    unfold parse_schedule at hp
    rcases h1 : pySplit s.toList with _ | ⟨ds, _ | ⟨ts, _ | ⟨z, zs⟩⟩⟩ <;>
      rw [h1] at hp <;> simp only [] at hp
    · exact absurd hp (by simp)
    · exact absurd hp (by simp)
    · by_cases hall : ((ds.map Char.toUpper).all fun c => valid_days.contains c) = true
      rotate_left
      · rw [if_neg hall] at hp; exact absurd hp (by simp)
      rw [if_pos hall] at hp
      rcases h2 : splitOnChar '-' ts with _ | ⟨t1, _ | ⟨t2, _ | ⟨w, ws⟩⟩⟩ <;>
        rw [h2] at hp <;> simp only [] at hp
      · exact absurd hp (by simp)
      · exact absurd hp (by simp)
      · rcases h3 : strptimeHM t1 with _ | ⟨⟨hh1, mm1⟩⟩ <;> rw [h3] at hp
        · exact absurd hp (by simp)
        rcases h4 : strptimeHM t2 with _ | ⟨⟨hh2, mm2⟩⟩ <;> rw [h4] at hp
        · exact absurd hp (by simp)
        simp only [] at hp
        by_cases hle : hh1 * 60 + mm1 ≥ hh2 * 60 + mm2
        · rw [if_pos hle] at hp; exact absurd hp (by simp)
        rw [if_neg hle] at hp
        injection hp with hp'
        refine ⟨ds, ts, t1, t2, hh1, mm1, hh2, mm2, rfl, hall, h2, h3, h4, by omega,
          ?_, ?_, ?_⟩
        · exact (congrArg Prod.fst hp').symm
        · exact (congrArg (fun p => p.2.1) hp').symm
        · exact (congrArg (fun p => p.2.2) hp').symm
      · exact absurd hp (by simp)
    · exact absurd hp (by simp)
  · rintro ⟨ds, ts, t1, t2, hh1, mm1, hh2, mm2, h1, hall, h2, h3, h4, hlt, rfl, rfl, rfl⟩
    have hle : ¬ hh1 * 60 + mm1 ≥ hh2 * 60 + mm2 := by omega
    unfold parse_schedule
    rw [h1]
    simp only [hall, if_pos, h2, h3, h4]
    rw [if_neg hle]

theorem parse_schedule_range {s : String} {d : Finset Char} {stm enm : Nat}
    (hp : parse_schedule s = some (d, stm, enm)) : stm < enm ∧ enm < 1440 := by
  rcases (parse_schedule_eq_some_iff s d stm enm).mp hp with
    ⟨ds, ts, t1, t2, hh1, mm1, hh2, mm2, _, _, _, h3, h4, hlt, _, hstm, henm⟩
  have b1 := strptimeHM_le h3
  have b2 := strptimeHM_le h4
  omega

/-- If a string fails to parse, `check_schedule_overlap` reports no overlap
(server.py lines 128-129). -/
theorem check_schedule_overlap_of_parse_none {s1 s2 : String}
    (h : parse_schedule s1 = none ∨ parse_schedule s2 = none) :
    check_schedule_overlap s1 s2 = false := by
  unfold check_schedule_overlap
  rcases h with h | h
  · rw [h]
  · rw [h]
    cases parse_schedule s1 <;> rfl

/-- If `check_schedule_overlap` reports an overlap, both strings parse. -/
theorem parse_isSome_of_overlap {s1 s2 : String}
    (h : check_schedule_overlap s1 s2 = true) :
    (parse_schedule s1).isSome ∧ (parse_schedule s2).isSome := by
  unfold check_schedule_overlap at h
  cases h1 : parse_schedule s1 <;> cases h2 : parse_schedule s2 <;>
    rw [h1, h2] at h <;> simp_all

/-! ## Lemmas about the store queries -/

theorem mem_registered {st : Store} {s : String} {c : Course} :
    c ∈ get_student_registered_courses st s ↔ c ∈ st.courses ∧ (s, c.name) ∈ st.regs := by
  unfold get_student_registered_courses
  rw [(List.perm_insertionSort courseLe _).mem_iff, List.mem_filter]
  simp

theorem sorted_registered (st : Store) (s : String) :
    (get_student_registered_courses st s).Sorted courseLe :=
  List.sorted_insertionSort courseLe _

/-- On a name-sorted list, `find?` returns a hit that is minimal in name
order among all hits. -/
theorem find?_sorted_min {p : Course → Bool} :
    ∀ {l : List Course}, l.Sorted courseLe → ∀ {x : Course}, l.find? p = some x →
      p x = true ∧ ∀ y ∈ l, p y = true → courseLe x y := by
  intro l
  induction l with
  | nil => intro _ x hx; simp at hx
  | cons a l ih =>
    intro hs x hx
    rw [List.sorted_cons] at hs
    by_cases hpa : p a
    · rw [List.find?_cons_of_pos _ hpa] at hx
      injection hx with hx
      subst hx
      refine ⟨hpa, ?_⟩
      intro y hy _
      rcases List.mem_cons.mp hy with rfl | hy
      · exact le_refl _
      · exact hs.1 y hy
    · rw [List.find?_cons_of_neg _ (by simpa using hpa)] at hx
      obtain ⟨hpx, hmin⟩ := ih hs.2 hx
      refine ⟨hpx, ?_⟩
      intro y hy hpy
      rcases List.mem_cons.mp hy with rfl | hy
      · exact absurd hpy (by simpa using hpa)
      · exact hmin y hy hpy

/-- Courses are uniquely determined by their name under the primary key. -/
theorem course_name_inj {st : Store} (h : (st.courses.map Course.name).Nodup)
    {c1 c2 : Course} (h1 : c1 ∈ st.courses) (h2 : c2 ∈ st.courses)
    (hn : c1.name = c2.name) : c1 = c2 :=
  List.inj_on_of_nodup_map h h1 h2 hn

theorem findCourse_eq_some {st : Store} {cn : String} {c : Course}
    (h : findCourse st cn = some c) : c ∈ st.courses ∧ c.name = cn := by
  unfold findCourse at h
  exact ⟨List.mem_of_find?_eq_some h, by simpa using List.find?_some h⟩

theorem findCourse_eq_none {st : Store} {cn : String}
    (h : findCourse st cn = none) : ∀ c ∈ st.courses, c.name ≠ cn := by
  unfold findCourse at h
  intro c hc
  simpa using List.find?_eq_none.mp h c hc

theorem findCourse_of_mem {st : Store} {cn : String} {c : Course}
    (hwf : (st.courses.map Course.name).Nodup)
    (hc : c ∈ st.courses) (hn : c.name = cn) : findCourse st cn = some c := by
  cases hf : findCourse st cn with
  | none => exact absurd hn (findCourse_eq_none hf c hc)
  | some c' =>
    obtain ⟨hc', hn'⟩ := findCourse_eq_some hf
    rw [course_name_inj hwf hc hc' (hn.trans hn'.symm)]

theorem findCourse_isSome_iff {st : Store} {cn : String} :
    (findCourse st cn).isSome ↔ ∃ c ∈ st.courses, c.name = cn := by
  unfold findCourse
  rw [List.find?_isSome]
  simp

/-- The length of the student's registered-courses join equals the student's
registration count, provided every registration of the student references an
existing course (referential integrity restricted to that student). -/
theorem length_registered (st : Store) (s : String)
    (hc : (st.courses.map Course.name).Nodup) (hr : st.regs.Nodup)
    (h5 : ∀ r ∈ st.regs, r.1 = s → ∃ c ∈ st.courses, c.name = r.2) :
    (get_student_registered_courses st s).length
      = (st.regs.filter (fun r => r.1 = s)).length := by
  have hlenA : (get_student_registered_courses st s).length
      = (st.courses.filter (fun c => decide ((s, c.name) ∈ st.regs))).length :=
    (List.perm_insertionSort courseLe _).length_eq
  set A := st.courses.filter (fun c => decide ((s, c.name) ∈ st.regs)) with hA
  set B := st.regs.filter (fun r => r.1 = s) with hB
  have hAnodup : (A.map Course.name).Nodup :=
    ((List.filter_sublist st.courses).map Course.name).nodup hc
  have hBnodup : B.Nodup := (List.filter_sublist st.regs).nodup hr
  have hBsnd : (B.map Prod.snd).Nodup := by
    refine hBnodup.map_on ?_
    intro x hx y hy hxy
    have hx1 : x.1 = s := by simpa using (List.mem_filter.mp hx).2
    have hy1 : y.1 = s := by simpa using (List.mem_filter.mp hy).2
    exact Prod.ext (hx1.trans hy1.symm) hxy
  have hsets : (A.map Course.name).toFinset = (B.map Prod.snd).toFinset := by
    ext cn
    simp only [List.mem_toFinset, List.mem_map, hA, hB, List.mem_filter,
      decide_eq_true_eq]
    constructor
    · rintro ⟨c, ⟨hcmem, hreg⟩, rfl⟩
      exact ⟨(s, c.name), ⟨hreg, rfl⟩, rfl⟩
    · rintro ⟨r, ⟨hrmem, hr1⟩, rfl⟩
      obtain ⟨c, hcmem, hcname⟩ := h5 r hrmem (by simpa using hr1)
      refine ⟨c, ⟨hcmem, ?_⟩, hcname⟩
      rw [hcname]
      have : r = (s, r.2) := Prod.ext (by simpa using hr1) rfl
      exact this ▸ hrmem
  calc (get_student_registered_courses st s).length
      = A.length := hlenA
    _ = (A.map Course.name).length := (List.length_map _ _).symm
    _ = (A.map Course.name).toFinset.card := (List.toFinset_card_of_nodup hAnodup).symm
    _ = (B.map Prod.snd).toFinset.card := by rw [hsets]
    _ = (B.map Prod.snd).length := List.toFinset_card_of_nodup hBsnd
    _ = B.length := List.length_map _ _

/-! ## Inversion of the enroll and withdraw handlers -/

/-- `handle_register_course` either leaves the store untouched (one of the
checks failed) or all checks passed and exactly the one registration row was
appended. -/
theorem register_cases (st : Store) (data : ReqData) (s : String) :
    ((handle_register_course st data s).1 ≠ .ok
        ∧ (handle_register_course st data s).2 = st)
    ∨ ((handle_register_course st data s).1 = .ok
        ∧ (handle_register_course st data s).2
            = { st with regs := st.regs ++ [(s, data.course_name)] }
        ∧ data.course_name ≠ ""
        ∧ (∃ c, findCourse st data.course_name = some c
            ∧ 0 < remaining_seats st c
            ∧ ∀ rc ∈ get_student_registered_courses st s,
                check_schedule_overlap c.schedule rc.schedule = false)
        ∧ (s, data.course_name) ∉ st.regs
        ∧ (get_student_registered_courses st s).length < MAX_COURSES_PER_STUDENT) := by
  unfold handle_register_course
  by_cases h1 : data.course_name = ""
  · simp [h1]
  rw [if_neg h1]
  cases hf : findCourse st data.course_name with
  | none => simp
  | some c =>
    dsimp only
    by_cases h2 : remaining_seats st c ≤ 0
    · simp [h2]
    rw [if_neg h2]
    by_cases h3 : (s, data.course_name) ∈ st.regs
    · simp [h3]
    rw [if_neg h3]
    by_cases h4 : MAX_COURSES_PER_STUDENT ≤ (get_student_registered_courses st s).length
    · simp [h4]
    rw [if_neg h4]
    cases hfind : (get_student_registered_courses st s).find?
        (fun rc => check_schedule_overlap c.schedule rc.schedule) with
    | some rc => simp
    | none =>
      right
      refine ⟨rfl, rfl, h1, ⟨c, rfl, by omega, ?_⟩, h3, by omega⟩
      intro rc hrc
      simpa using List.find?_eq_none.mp hfind rc hrc

/-- `handle_withdraw_course` either leaves the store untouched or the
registration existed and exactly the matching rows were deleted. -/
theorem withdraw_cases (st : Store) (data : ReqData) (s : String) :
    (handle_withdraw_course st data s).2 = st
    ∨ ((handle_withdraw_course st data s).1 = .ok
        ∧ data.course_name ≠ ""
        ∧ (s, data.course_name) ∈ st.regs
        ∧ (handle_withdraw_course st data s).2
            = { st with
                regs := st.regs.filter (fun r => decide (r ≠ (s, data.course_name))) }) := by
  unfold handle_withdraw_course
  by_cases h1 : data.course_name = ""
  · simp [h1]
  rw [if_neg h1]
  by_cases h2 : (s, data.course_name) ∈ st.regs
  · rw [if_pos h2]; exact .inr ⟨rfl, h1, h2, rfl⟩
  · rw [if_neg h2]; exact .inl rfl

theorem register_components (st : Store) (data : ReqData) (s : String) :
    (handle_register_course st data s).2.admins = st.admins
    ∧ (handle_register_course st data s).2.students = st.students
    ∧ (handle_register_course st data s).2.courses = st.courses := by
  rcases register_cases st data s with ⟨_, h⟩ | ⟨_, h, _⟩ <;> rw [h] <;>
    exact ⟨rfl, rfl, rfl⟩

theorem withdraw_components (st : Store) (data : ReqData) (s : String) :
    (handle_withdraw_course st data s).2.admins = st.admins
    ∧ (handle_withdraw_course st data s).2.students = st.students
    ∧ (handle_withdraw_course st data s).2.courses = st.courses := by
  rcases withdraw_cases st data s with h | ⟨_, _, _, h⟩ <;> rw [h] <;>
    exact ⟨rfl, rfl, rfl⟩

/-! ## Invariant preservation -/

theorem regCount_insert (st : Store) (s cn n : String) :
    regCount { st with regs := st.regs ++ [(s, cn)] } n
      = regCount st n + (if cn = n then 1 else 0) := by
  unfold regCount
  rw [List.filter_append, List.length_append]
  congr 1
  by_cases h : cn = n <;> simp [h]

theorem byStudent_insert (st : Store) (s cn s' : String) :
    (({ st with regs := st.regs ++ [(s, cn)] } : Store).regs.filter
        (fun r => r.1 = s')).length
      = (st.regs.filter (fun r => r.1 = s')).length + (if s = s' then 1 else 0) := by
  show ((st.regs ++ [(s, cn)]).filter _).length = _
  rw [List.filter_append, List.length_append]
  congr 1
  by_cases h : s = s' <;> simp [h]

theorem length_filter_le_of_sub {α : Type} (l : List α) (p q : α → Bool) :
    ((l.filter q).filter p).length ≤ (l.filter p).length := by
  rw [← List.countP_eq_length_filter, ← List.countP_eq_length_filter,
    List.countP_filter]
  exact List.countP_mono_left (fun a _ h => by
    simp only [Bool.and_eq_true] at h
    exact h.1)

/-- A successful enroll preserves the schema well-formedness and all five
invariants (the enrolling student is an authenticated account). -/
theorem register_preserves (st : Store) (data : ReqData) (s : String)
    (hwf : SchemaWF st) (hinv : Invariants st)
    (hstu : ∃ stu ∈ st.students, stu.username = s) :
    SchemaWF (handle_register_course st data s).2
      ∧ Invariants (handle_register_course st data s).2 := by
  obtain ⟨hcN, hsN, hrN⟩ := hwf
  obtain ⟨h1, h2, h3, h4, h5⟩ := hinv
  rcases register_cases st data s with ⟨_, heq⟩ |
    ⟨_, heq, hne, ⟨c, hf, hrem, hconf⟩, hnotreg, hlim⟩
  · rw [heq]; exact ⟨⟨hcN, hsN, hrN⟩, h1, h2, h3, h4, h5⟩
  rw [heq]
  obtain ⟨hcmem, hcname⟩ := findCourse_eq_some hf
  have hregs' : ({ st with regs := st.regs ++ [(s, data.course_name)] } : Store).regs.Nodup := by
    refine List.Nodup.append hrN (List.nodup_singleton _) ?_
    intro a ha hax
    rw [List.mem_singleton] at hax
    exact hnotreg (hax ▸ ha)
  refine ⟨⟨hcN, hsN, hregs'⟩, ?_, hregs', ?_, ?_, ?_⟩
  · -- I1
    intro c' hc'
    rw [regCount_insert]
    by_cases hn : data.course_name = c'.name
    · have hcc : c' = c := course_name_inj hcN hc' hcmem (hn ▸ hcname).symm
      have hcount := h1 c' hc'
      unfold remaining_seats at hrem
      rw [if_pos hn]
      push_cast
      rw [hcc] at hcount ⊢
      omega
    · rw [if_neg hn]
      simpa using h1 c' hc'
  · -- I3
    intro s'
    rw [byStudent_insert]
    by_cases hs' : s = s'
    · rw [if_pos hs']
      subst hs'
      have hjoin := length_registered st s hcN hrN (fun r hr _ => (h5 r hr).2)
      have := h3 s
      omega
    · rw [if_neg hs']
      simpa using h3 s'
  · -- I4
    intro s' c1 hc1 c2 hc2 hname hr1 hr2
    simp only [List.mem_append, List.mem_singleton, Prod.mk.injEq] at hr1 hr2
    rcases hr1 with hr1 | ⟨hs1, hn1⟩
    · rcases hr2 with hr2 | ⟨hs2, hn2⟩
      · exact h4 s' c1 hc1 c2 hc2 hname hr1 hr2
      · -- c2 is the newly registered course
        have hc2c : c2 = c := course_name_inj hcN hc2 hcmem (hn2.symm ▸ hcname).symm
        have hreg1 : c1 ∈ get_student_registered_courses st s :=
          mem_registered.mpr ⟨hc1, hs2 ▸ hr1⟩
        rw [check_schedule_overlap_comm, hc2c]
        exact hconf c1 hreg1
    · rcases hr2 with hr2 | ⟨hs2, hn2⟩
      · have hc1c : c1 = c := course_name_inj hcN hc1 hcmem (hn1.symm ▸ hcname).symm
        have hreg2 : c2 ∈ get_student_registered_courses st s :=
          mem_registered.mpr ⟨hc2, hs1 ▸ hr2⟩
        rw [hc1c]
        exact hconf c2 hreg2
      · exact absurd (hn1.trans hn2.symm) hname
  · -- I5
    intro r hr
    simp only [List.mem_append, List.mem_singleton] at hr
    rcases hr with hr | rfl
    · exact h5 r hr
    · exact ⟨hstu, ⟨c, hcmem, hcname⟩⟩

/-- A withdraw preserves the schema well-formedness and all five invariants. -/
theorem withdraw_preserves (st : Store) (data : ReqData) (s : String)
    (hwf : SchemaWF st) (hinv : Invariants st) :
    SchemaWF (handle_withdraw_course st data s).2
      ∧ Invariants (handle_withdraw_course st data s).2 := by
  obtain ⟨hcN, hsN, hrN⟩ := hwf
  obtain ⟨h1, h2, h3, h4, h5⟩ := hinv
  rcases withdraw_cases st data s with heq | ⟨_, _, _, heq⟩
  · rw [heq]; exact ⟨⟨hcN, hsN, hrN⟩, h1, h2, h3, h4, h5⟩
  rw [heq]
  have hsub : ∀ r, r ∈ st.regs.filter (fun r => decide (r ≠ (s, data.course_name)))
      → r ∈ st.regs := fun r hr => List.mem_of_mem_filter hr
  refine ⟨⟨hcN, hsN, (List.filter_sublist st.regs).nodup hrN⟩,
    ?_, (List.filter_sublist st.regs).nodup hrN, ?_, ?_, ?_⟩
  · -- I1
    intro c hc
    refine le_trans ?_ (h1 c hc)
    have := length_filter_le_of_sub st.regs (fun r => r.2 = c.name)
      (fun r => decide (r ≠ (s, data.course_name)))
    exact_mod_cast this
  · -- I3
    intro s'
    exact le_trans (length_filter_le_of_sub st.regs (fun r => r.1 = s')
      (fun r => decide (r ≠ (s, data.course_name)))) (h3 s')
  · -- I4
    intro s' c1 hc1 c2 hc2 hname hr1 hr2
    exact h4 s' c1 hc1 c2 hc2 hname (hsub _ hr1) (hsub _ hr2)
  · -- I5
    intro r hr
    exact h5 r (hsub r hr)

/-- One enrollment-affecting operation preserves the invariants. -/
theorem applyOp_preserves (st : Store) (op : Op)
    (hwf : SchemaWF st) (hinv : Invariants st) (hauth : OpAuthorized st op) :
    SchemaWF (applyOp st op) ∧ Invariants (applyOp st op) := by
  cases op with
  | enroll s cn => exact register_preserves st { course_name := cn } s hwf hinv hauth
  | withdraw s cn => exact withdraw_preserves st { course_name := cn } s hwf hinv

theorem applyOp_students (st : Store) (op : Op) :
    (applyOp st op).students = st.students := by
  cases op with
  | enroll s cn => exact (register_components st { course_name := cn } s).2.1
  | withdraw s cn => exact (withdraw_components st { course_name := cn } s).2.1

theorem opAuthorized_congr {st st' : Store} (h : st.students = st'.students)
    {op : Op} (ha : OpAuthorized st op) : OpAuthorized st' op := by
  cases op with
  | enroll s cn =>
    obtain ⟨stu, hstu, he⟩ := ha
    exact ⟨stu, h ▸ hstu, he⟩
  | withdraw s cn => trivial

/-- Any sequence of enroll/withdraw operations issued by authenticated
students preserves the invariants. -/
theorem applyOps_preserves (ops : List Op) (st : Store)
    (hwf : SchemaWF st) (hinv : Invariants st)
    (hauth : ∀ op ∈ ops, OpAuthorized st op) :
    SchemaWF (applyOps st ops) ∧ Invariants (applyOps st ops) := by
  induction ops generalizing st with
  | nil => exact ⟨hwf, hinv⟩
  | cons op ops ih =>
    obtain ⟨hwf', hinv'⟩ := applyOp_preserves st op hwf hinv (hauth op (by simp))
    refine ih (applyOp st op) hwf' hinv' ?_
    intro op' hop'
    exact opAuthorized_congr (applyOp_students st op).symm (hauth op' (by simp [hop']))

/-! ## Branch-precise results of the handlers -/

/-- The result of `handle_register_course` on each branch, in check order. -/
theorem register_spec (st : Store) (data : ReqData) (s : String)
    (hne : data.course_name ≠ "") :
    (findCourse st data.course_name = none →
      handle_register_course st data s = (.notFound, st))
    ∧ (∀ c, findCourse st data.course_name = some c →
        remaining_seats st c ≤ 0 →
        handle_register_course st data s = (.full, st))
    ∧ (∀ c, findCourse st data.course_name = some c → 0 < remaining_seats st c →
        (s, data.course_name) ∈ st.regs →
        handle_register_course st data s = (.alreadyRegistered, st))
    ∧ (∀ c, findCourse st data.course_name = some c → 0 < remaining_seats st c →
        (s, data.course_name) ∉ st.regs →
        MAX_COURSES_PER_STUDENT ≤ (get_student_registered_courses st s).length →
        handle_register_course st data s = (.limitExceeded, st))
    ∧ (∀ c, findCourse st data.course_name = some c → 0 < remaining_seats st c →
        (s, data.course_name) ∉ st.regs →
        (get_student_registered_courses st s).length < MAX_COURSES_PER_STUDENT →
        ∀ rc, (get_student_registered_courses st s).find?
            (fun x => check_schedule_overlap c.schedule x.schedule) = some rc →
        handle_register_course st data s = (.scheduleConflict rc.name rc.schedule, st))
    ∧ (∀ c, findCourse st data.course_name = some c → 0 < remaining_seats st c →
        (s, data.course_name) ∉ st.regs →
        (get_student_registered_courses st s).length < MAX_COURSES_PER_STUDENT →
        (get_student_registered_courses st s).find?
            (fun x => check_schedule_overlap c.schedule x.schedule) = none →
        handle_register_course st data s
          = (.ok, { st with regs := st.regs ++ [(s, data.course_name)] })) := by
  refine ⟨?_, ?_, ?_, ?_, ?_, ?_⟩
  · intro h
    unfold handle_register_course
    rw [if_neg hne, h]
  · intro c h h2
    unfold handle_register_course
    rw [if_neg hne, h]
    dsimp only
    rw [if_pos h2]
  · intro c h h2 h3
    unfold handle_register_course
    rw [if_neg hne, h]
    dsimp only
    rw [if_neg (by omega : ¬ remaining_seats st c ≤ 0), if_pos h3]
  · intro c h h2 h3 h4
    unfold handle_register_course
    rw [if_neg hne, h]
    dsimp only
    rw [if_neg (by omega : ¬ remaining_seats st c ≤ 0), if_neg h3, if_pos h4]
  · intro c h h2 h3 h4 rc h5
    unfold handle_register_course
    rw [if_neg hne, h]
    dsimp only
    rw [if_neg (by omega : ¬ remaining_seats st c ≤ 0), if_neg h3,
      if_neg (by omega : ¬ MAX_COURSES_PER_STUDENT
        ≤ (get_student_registered_courses st s).length), h5]
  · intro c h h2 h3 h4 h5
    unfold handle_register_course
    rw [if_neg hne, h]
    dsimp only
    rw [if_neg (by omega : ¬ remaining_seats st c ≤ 0), if_neg h3,
      if_neg (by omega : ¬ MAX_COURSES_PER_STUDENT
        ≤ (get_student_registered_courses st s).length), h5]

/-- A `scheduleConflict` answer comes from a registered course that the
looked-up course's schedule truly overlaps. -/
theorem register_conflict_inversion (st : Store) (data : ReqData) (s : String)
    {n sch : String}
    (h : (handle_register_course st data s).1 = .scheduleConflict n sch) :
    ∃ c rc, findCourse st data.course_name = some c
      ∧ rc ∈ get_student_registered_courses st s
      ∧ rc.name = n ∧ rc.schedule = sch
      ∧ check_schedule_overlap c.schedule rc.schedule = true := by
  unfold handle_register_course at h
  by_cases h1 : data.course_name = ""
  · rw [if_pos h1] at h; exact absurd h (by simp)
  rw [if_neg h1] at h
  cases hf : findCourse st data.course_name with
  | none => rw [hf] at h; exact absurd h (by simp)
  | some c =>
    rw [hf] at h
    dsimp only at h
    by_cases h2 : remaining_seats st c ≤ 0
    · rw [if_pos h2] at h; exact absurd h (by simp)
    rw [if_neg h2] at h
    by_cases h3 : (s, data.course_name) ∈ st.regs
    · rw [if_pos h3] at h; exact absurd h (by simp)
    rw [if_neg h3] at h
    by_cases h4 : MAX_COURSES_PER_STUDENT ≤ (get_student_registered_courses st s).length
    · rw [if_pos h4] at h; exact absurd h (by simp)
    rw [if_neg h4] at h
    cases hfind : (get_student_registered_courses st s).find?
        (fun x => check_schedule_overlap c.schedule x.schedule) with
    | none => rw [hfind] at h; exact absurd h (by simp)
    | some rc =>
      rw [hfind] at h
      dsimp only at h
      simp only [EnrollResult.scheduleConflict.injEq] at h
      exact ⟨c, rc, rfl, List.mem_of_find?_eq_some hfind, h.1, h.2,
        by simpa using List.find?_some hfind⟩

/-- `handle_create_course` either leaves the store untouched or appends
exactly the new course row. -/
theorem create_cases (st : Store) (data : ReqData) :
    (handle_create_course st data).2 = st
    ∨ (∃ cap, data.capacity = some cap
        ∧ (handle_create_course st data).2
          = { st with courses := st.courses ++ [⟨data.name, data.schedule, cap⟩] }) := by
  unfold handle_create_course
  cases data.capacity with
  | none => exact .inl rfl
  | some cap =>
    dsimp only
    by_cases h1 : data.name = "" ∨ data.schedule = ""
    · rw [if_pos h1]; exact .inl rfl
    rw [if_neg h1]
    by_cases h2 : cap ≤ 0
    · rw [if_pos h2]; exact .inl rfl
    rw [if_neg h2]
    by_cases h3 : (parse_schedule data.schedule).isNone = true
    · rw [if_pos h3]; exact .inl rfl
    rw [if_neg h3]
    by_cases h4 : (findCourse st data.name).isSome = true
    · rw [if_pos h4]; exact .inl rfl
    rw [if_neg h4]
    exact .inr ⟨cap, rfl, rfl⟩

/-- `handle_update_course` either leaves the store untouched or a course
with the requested name exists, the new capacity strictly exceeds its
current one, and the rows with that name get the new capacity. -/
theorem update_cases (st : Store) (data : ReqData) :
    (handle_update_course st data).2 = st
    ∨ (∃ cap c0, data.capacity = some cap
        ∧ findCourse st data.name = some c0
        ∧ c0.capacity < cap
        ∧ (handle_update_course st data).2
          = { st with courses := st.courses.map (fun c =>
              if c.name = data.name then { c with capacity := cap } else c) }) := by
  unfold handle_update_course
  cases data.capacity with
  | none => exact .inl rfl
  | some cap =>
    dsimp only
    by_cases h1 : data.name = ""
    · rw [if_pos h1]; exact .inl rfl
    rw [if_neg h1]
    cases hf : findCourse st data.name with
    | none => exact .inl rfl
    | some c0 =>
      dsimp only
      by_cases h2 : cap ≤ c0.capacity
      · rw [if_pos h2]; exact .inl rfl
      rw [if_neg h2]
      exact .inr ⟨cap, c0, rfl, rfl, by omega, rfl⟩

theorem add_student_components (hash : String → String) (st : Store) (data : ReqData) :
    (handle_add_student hash st data).2.courses = st.courses
      ∧ (handle_add_student hash st data).2.regs = st.regs := by
  unfold handle_add_student
  by_cases h1 : data.name = "" ∨ data.username = "" ∨ data.password = ""
  · rw [if_pos h1]; exact ⟨rfl, rfl⟩
  rw [if_neg h1]
  by_cases h2 : ((st.students.find? (fun s => s.username = data.username)).isSome) = true
  · rw [if_pos h2]; exact ⟨rfl, rfl⟩
  · rw [if_neg h2]; exact ⟨rfl, rfl⟩

/-- Looking up a course only depends on the courses table. -/
theorem findCourse_congr {st st' : Store} (h : st'.courses = st.courses)
    (cn : String) : findCourse st' cn = findCourse st cn := by
  unfold findCourse
  rw [h]

/-- Deleting one row present in a duplicate-free table shrinks it by one. -/
theorem length_filter_ne {α : Type} [DecidableEq α] {l : List α} {x : α}
    (hx : x ∈ l) (hn : l.Nodup) :
    (l.filter (fun r => decide (r ≠ x))).length + 1 = l.length := by
  induction l with
  | nil => cases hx
  | cons a l ih =>
    rw [List.nodup_cons] at hn
    rcases List.mem_cons.mp hx with rfl | hx'
    · have hid : l.filter (fun r => decide (r ≠ x)) = l := by
        apply List.filter_eq_self.mpr
        intro b hb
        simp only [decide_eq_true_eq]
        intro hba
        exact hn.1 (hba ▸ hb)
      rw [List.filter_cons_of_neg (by simp), hid, List.length_cons]
    · have hax : a ≠ x := fun h => hn.1 (h ▸ hx')
      rw [List.filter_cons_of_pos (by simpa using hax), List.length_cons,
        List.length_cons]
      have := ih hx' hn.2
      omega

instance (st : Store) : Decidable (I2 st) :=
  inferInstanceAs (Decidable st.regs.Nodup)

instance (st : Store) : Decidable (I5 st) :=
  List.decidableBAll _ st.regs

theorem all_days_iff (ds : List Char) :
    ((ds.map Char.toUpper).all fun c => valid_days.contains c) = true
      ↔ ∀ ch ∈ ds, ch.toUpper ∈ valid_days := by
  rw [List.all_eq_true]
  constructor
  · intro h ch hch
    have := h ch.toUpper (List.mem_map_of_mem _ hch)
    simpa [List.contains] using this
  · intro h c hc
    obtain ⟨ch, hch, rfl⟩ := List.mem_map.mp hc
    simpa [List.contains] using h ch hch

/-- A store with the spec's schedule-conflict scenario: the student alice is
registered in MATH1 (MWF 10:00-11:00); PHYS1 (MW 10:30-11:30) conflicts with
it, CHEM1 (TR 10:00-11:00) does not. -/
def wStore : Store :=
  { admins := [("admin", "h0")]
    students := [⟨"alice", "Alice", "h1"⟩]
    courses := [⟨"CHEM1", "TR 10:00-11:00", 30⟩, ⟨"MATH1", "MWF 10:00-11:00", 30⟩,
      ⟨"PHYS1", "MW 10:30-11:30", 30⟩]
    regs := [("alice", "MATH1")] }

/-! ## The claims -/

/-- C4: on canonical schedules, `overlaps` returns true iff the weekday sets
intersect and `max start1 start2 < min end1 end2`; it is symmetric; and two
schedules where one ends exactly at the minute the other starts never
overlap (half-open semantics).  The function is pure by construction. -/
theorem claim4_overlaps_spec (a b : CanonSchedule) :
    (overlaps a b = true ↔ (a.1 ∩ b.1).Nonempty ∧ max a.2.1 b.2.1 < min a.2.2 b.2.2)
    ∧ overlaps a b = overlaps b a
    ∧ (a.2.2 = b.2.1 → overlaps a b = false) := by
  refine ⟨overlaps_true_iff a b, overlaps_comm a b, ?_⟩
  intro htouch
  cases hov : overlaps a b with
  | false => rfl
  | true =>
    obtain ⟨_, hlt⟩ := (overlaps_true_iff a b).mp hov
    have h1 : min a.2.2 b.2.2 ≤ a.2.2 := min_le_left _ _
    have h2 : b.2.1 ≤ max a.2.1 b.2.1 := le_max_right _ _
    omega

theorem claim4_witness : overlaps ({'M'}, 600, 660) ({'M'}, 660, 720) = false :=
  (claim4_overlaps_spec ({'M'}, 600, 660) ({'M'}, 660, 720)).2.2 rfl

/-- C5: `parse_schedule` succeeds exactly when the descriptor has two
whitespace-separated fields, every (uppercased) letter of the day field is in
the weekday alphabet, the time field consists of exactly two `-`-separated
endpoints that both parse under `strptime("%H:%M")`, and the start minute is
strictly below the end minute; and any parsed output satisfies
`start < end < 1440`, so both minutes lie in `[0, 1440)`. -/
theorem claim5_parse_schedule_spec (sstr : String) :
    ((∃ r, parse_schedule sstr = some r) ↔
      ∃ ds ts, pySplit sstr.toList = [ds, ts]
        ∧ (∀ ch ∈ ds, ch.toUpper ∈ valid_days)
        ∧ ∃ t1 t2 hh1 mm1 hh2 mm2, splitOnChar '-' ts = [t1, t2]
            ∧ strptimeHM t1 = some (hh1, mm1)
            ∧ strptimeHM t2 = some (hh2, mm2)
            ∧ hh1 * 60 + mm1 < hh2 * 60 + mm2)
    ∧ (∀ d stm enm, parse_schedule sstr = some (d, stm, enm) →
        stm < enm ∧ enm < 1440) := by
  constructor
  · constructor
    · rintro ⟨⟨d, stm, enm⟩, hr⟩
      obtain ⟨ds, ts, t1, t2, hh1, mm1, hh2, mm2, H1, Hall, H2, H3, H4, Hlt, _, _, _⟩ :=
        (parse_schedule_eq_some_iff sstr d stm enm).mp hr
      exact ⟨ds, ts, H1, (all_days_iff ds).mp Hall,
        t1, t2, hh1, mm1, hh2, mm2, H2, H3, H4, Hlt⟩
    · rintro ⟨ds, ts, H1, Hdays, t1, t2, hh1, mm1, hh2, mm2, H2, H3, H4, Hlt⟩
      exact ⟨((ds.map Char.toUpper).toFinset, hh1 * 60 + mm1, hh2 * 60 + mm2),
        (parse_schedule_eq_some_iff sstr _ _ _).mpr
          ⟨ds, ts, t1, t2, hh1, mm1, hh2, mm2, H1, (all_days_iff ds).mpr Hdays,
            H2, H3, H4, Hlt, rfl, rfl, rfl⟩⟩
  · intro d stm enm h
    exact parse_schedule_range h

theorem claim5_witness : (600 : Nat) < 690 ∧ (690 : Nat) < 1440 :=
  (claim5_parse_schedule_spec "MWF 10:00-11:30").2 {'M', 'W', 'F'} 600 690 (by decide)

/-- C10: the overlap check treats any unparsable schedule string as
non-overlapping, and consequently a `scheduleConflict` answer of the enroll
handler always names a registered course whose stored descriptor parses (as
does the descriptor of the course being enrolled in). -/
theorem claim10_malformed_schedules_never_conflict :
    (∀ s1 s2 : String,
      parse_schedule s1 = none ∨ parse_schedule s2 = none →
      check_schedule_overlap s1 s2 = false)
    ∧ (∀ st data s n sch,
        (handle_register_course st data s).1 = .scheduleConflict n sch →
        (parse_schedule sch).isSome
        ∧ ∃ c, findCourse st data.course_name = some c
            ∧ (parse_schedule c.schedule).isSome
            ∧ (s, n) ∈ st.regs) := by
  refine ⟨fun s1 s2 h => check_schedule_overlap_of_parse_none h, ?_⟩
  intro st data s n sch h
  obtain ⟨c, rc, hf, hrc, hn, hsch, hov⟩ := register_conflict_inversion st data s h
  have hp := parse_isSome_of_overlap hov
  refine ⟨hsch ▸ hp.2, c, hf, hp.1, ?_⟩
  have := (mem_registered.mp hrc).2
  exact hn ▸ this

theorem claim10_witness : check_schedule_overlap "banana" "MWF 10:00-11:00" = false :=
  claim10_malformed_schedules_never_conflict.1 "banana" "MWF 10:00-11:00"
    (Or.inl (by decide))

/-- C2 (code bug): the lock in `db_execute` covers only the `INSERT`, not the
check sequence, so with offering CS101 at capacity 1 and no registrations the
interleaving (A checks, B checks, A inserts, B inserts) lets both enrolls
succeed: the store starts satisfying I1, both sessions finish with a success
response, and the final store has two registrations for the one seat,
violating I1 — where the spec requires exactly one success and the other
`Full`, for every interleaving. -/
theorem claim2_last_seat_race_overbooks :
    I1 raceStore
    ∧ (raceRun "alice" "bob" "CS101" [false, true, false, true]
        ⟨raceStore, .ready, .ready⟩).phaseA = .finished true
    ∧ (raceRun "alice" "bob" "CS101" [false, true, false, true]
        ⟨raceStore, .ready, .ready⟩).phaseB = .finished true
    ∧ (raceRun "alice" "bob" "CS101" [false, true, false, true]
        ⟨raceStore, .ready, .ready⟩).store.regs
      = [("alice", "CS101"), ("bob", "CS101")]
    ∧ ¬ I1 (raceRun "alice" "bob" "CS101" [false, true, false, true]
        ⟨raceStore, .ready, .ready⟩).store := by
  refine ⟨by decide, by decide, by decide, by decide, by decide⟩

/-- C6: with both request fields present, `handle_create_course` fails with
`invalidCapacity` when the capacity is not positive, with `invalidSchedule`
when the descriptor does not parse, with `alreadyExists` when a course with
the name exists (capacity and schedule being valid), inserts the course
otherwise, and leaves the store unchanged on every failure.  When failure
conditions co-occur the source checks them in the order capacity, schedule,
name. -/
theorem claim6_create_offering (st : Store) (name sched : String) (cap : Int)
    (hn : name ≠ "") (hs : sched ≠ "") :
    (cap ≤ 0 →
      handle_create_course st { name := name, schedule := sched, capacity := some cap }
        = (.invalidCapacity, st))
    ∧ (0 < cap → parse_schedule sched = none →
      handle_create_course st { name := name, schedule := sched, capacity := some cap }
        = (.invalidSchedule, st))
    ∧ (0 < cap → (parse_schedule sched).isSome → (∃ c ∈ st.courses, c.name = name) →
      handle_create_course st { name := name, schedule := sched, capacity := some cap }
        = (.alreadyExists, st))
    ∧ (0 < cap → (parse_schedule sched).isSome → (∀ c ∈ st.courses, c.name ≠ name) →
      handle_create_course st { name := name, schedule := sched, capacity := some cap }
        = (.ok, { st with courses := st.courses ++ [⟨name, sched, cap⟩] })) := by
  have hmiss : ¬ (name = "" ∨ sched = "") := by
    intro h; rcases h with h | h
    · exact hn h
    · exact hs h
  refine ⟨?_, ?_, ?_, ?_⟩
  · intro hcap
    unfold handle_create_course
    dsimp only
    rw [if_neg hmiss, if_pos hcap]
  · intro hcap hps
    unfold handle_create_course
    dsimp only
    rw [if_neg hmiss, if_neg (by omega : ¬ cap ≤ 0), if_pos (by simp [hps])]
  · intro hcap hps hex
    unfold handle_create_course
    dsimp only
    obtain ⟨v, hv⟩ := Option.isSome_iff_exists.mp hps
    rw [if_neg hmiss, if_neg (by omega : ¬ cap ≤ 0),
      if_neg (by simp [hv] : ¬ (parse_schedule sched).isNone = true),
      if_pos (findCourse_isSome_iff.mpr hex)]
  · intro hcap hps hall
    unfold handle_create_course
    dsimp only
    obtain ⟨v, hv⟩ := Option.isSome_iff_exists.mp hps
    have hnot : ¬ ((findCourse st name).isSome = true) := by
      intro hsome
      obtain ⟨c, hc, hcn⟩ := findCourse_isSome_iff.mp hsome
      exact hall c hc hcn
    rw [if_neg hmiss, if_neg (by omega : ¬ cap ≤ 0),
      if_neg (by simp [hv] : ¬ (parse_schedule sched).isNone = true), if_neg hnot]

theorem claim6_witness :
    handle_create_course raceStore
        { name := "X", schedule := "MWF 25:00-26:00", capacity := some 10 }
      = (.invalidSchedule, raceStore)
    ∧ handle_create_course raceStore
        { name := "X", schedule := "MWF 09:00-09:00", capacity := some 10 }
      = (.invalidSchedule, raceStore)
    ∧ handle_create_course raceStore
        { name := "X", schedule := "MWF 10:00-11:00", capacity := some 0 }
      = (.invalidCapacity, raceStore) :=
  ⟨(claim6_create_offering raceStore "X" "MWF 25:00-26:00" 10 (by decide)
      (by decide)).2.1 (by decide) (by decide),
   (claim6_create_offering raceStore "X" "MWF 09:00-09:00" 10 (by decide)
      (by decide)).2.1 (by decide) (by decide),
   (claim6_create_offering raceStore "X" "MWF 10:00-11:00" 0 (by decide)
      (by decide)).1 (by decide)⟩

/-- C7: in the session machine, any non-login request in the unauthenticated
state is answered `authRequired` with state and store unchanged; any request
outside the role's action set in an authenticated state is answered with the
role's invalid-action error, state and store unchanged; `logout` from either
authenticated state succeeds, closes the session, and tears the connection
down; and the closed state processes no request. -/
theorem claim7_session_state_machine (hash : String → String) (st : Store)
    (data : ReqData) (action u : String) :
    (action ≠ "login_student" → action ≠ "login_admin" →
      handle_client_step hash st .unauth action data
        = some (st, .unauth, .authRequired, false))
    ∧ (action ∉ studentActions →
      handle_client_step hash st (.auth .student u) action data
        = some (st, .auth .student u, .invalidActionStudent, false))
    ∧ (action ∉ adminActions →
      handle_client_step hash st (.auth .admin u) action data
        = some (st, .auth .admin u, .invalidActionAdmin, false))
    ∧ (∀ role, handle_client_step hash st (.auth role u) "logout" data
        = some (st, .closed, .loggedOut, true) ∧ Resp.isSuccess .loggedOut = true)
    ∧ handle_client_step hash st .closed action data = none := by
  refine ⟨?_, ?_, ?_, ?_, rfl⟩
  · intro h1 h2
    unfold handle_client_step
    rw [if_neg h1, if_neg h2]
  · intro h
    simp only [studentActions, List.mem_cons, List.not_mem_nil, or_false,
      not_or] at h
    obtain ⟨n1, n2, n3, n4, n5⟩ := h
    unfold handle_client_step
    dsimp only
    rw [if_neg n1, if_neg n2, if_neg n3, if_neg n4, if_neg n5]
  · intro h
    simp only [adminActions, List.mem_cons, List.not_mem_nil, or_false,
      not_or] at h
    obtain ⟨n1, n2, n3, n4, n5⟩ := h
    unfold handle_client_step
    dsimp only
    rw [if_neg n1, if_neg n2, if_neg n3, if_neg n4, if_neg n5]
  · intro role
    cases role <;> exact ⟨rfl, rfl⟩

theorem claim7_witness :
    handle_client_step (fun x => x) raceStore .unauth "register_course" {}
      = some (raceStore, .unauth, .authRequired, false)
    ∧ handle_client_step (fun x => x) raceStore (.auth .student "alice")
        "create_course" {}
      = some (raceStore, .auth .student "alice", .invalidActionStudent, false)
    ∧ handle_client_step (fun x => x) raceStore (.auth .student "alice") "logout" {}
      = some (raceStore, .closed, .loggedOut, true) :=
  ⟨(claim7_session_state_machine (fun x => x) raceStore {} "register_course"
      "alice").1 (by decide) (by decide),
   (claim7_session_state_machine (fun x => x) raceStore {} "create_course"
      "alice").2.1 (by decide),
   ((claim7_session_state_machine (fun x => x) raceStore {} "logout"
      "alice").2.2.2.1 .student).1⟩

/-- No request-loop step lowers the capacity of an existing course: every
course keeps a row with its name whose capacity is at least the old one. -/
theorem step_capacity_mono (hash : String → String) (st : Store) (ss : SessState)
    (action : String) (data : ReqData) (hwf : SchemaWF st)
    (res : Store × SessState × Resp × Bool)
    (h : handle_client_step hash st ss action data = some res) :
    ∀ c ∈ st.courses, ∃ c' ∈ res.1.courses,
      c'.name = c.name ∧ c.capacity ≤ c'.capacity := by
  cases ss with
  | closed => cases h
  | unauth =>
    unfold handle_client_step at h
    dsimp only at h
    by_cases a1 : action = "login_student"
    · rw [if_pos a1] at h
      injection h with h; subst h
      exact fun c hc => ⟨c, hc, rfl, le_refl _⟩
    rw [if_neg a1] at h
    by_cases a2 : action = "login_admin"
    · rw [if_pos a2] at h
      injection h with h; subst h
      exact fun c hc => ⟨c, hc, rfl, le_refl _⟩
    rw [if_neg a2] at h
    injection h with h; subst h
    exact fun c hc => ⟨c, hc, rfl, le_refl _⟩
  | auth role u =>
    cases role with
    | student =>
      unfold handle_client_step at h
      dsimp only at h
      by_cases a1 : action = "list_courses_student"
      · rw [if_pos a1] at h
        injection h with h; subst h
        exact fun c hc => ⟨c, hc, rfl, le_refl _⟩
      rw [if_neg a1] at h
      by_cases a2 : action = "register_course"
      · rw [if_pos a2] at h
        injection h with h; subst h
        intro c hc
        refine ⟨c, ?_, rfl, le_refl _⟩
        show c ∈ (handle_register_course st data u).2.courses
        rw [(register_components st data u).2.2]
        exact hc
      rw [if_neg a2] at h
      by_cases a3 : action = "withdraw_course"
      · rw [if_pos a3] at h
        injection h with h; subst h
        intro c hc
        refine ⟨c, ?_, rfl, le_refl _⟩
        show c ∈ (handle_withdraw_course st data u).2.courses
        rw [(withdraw_components st data u).2.2]
        exact hc
      rw [if_neg a3] at h
      by_cases a4 : action = "my_courses"
      · rw [if_pos a4] at h
        injection h with h; subst h
        exact fun c hc => ⟨c, hc, rfl, le_refl _⟩
      rw [if_neg a4] at h
      by_cases a5 : action = "logout"
      · rw [if_pos a5] at h
        injection h with h; subst h
        exact fun c hc => ⟨c, hc, rfl, le_refl _⟩
      rw [if_neg a5] at h
      injection h with h; subst h
      exact fun c hc => ⟨c, hc, rfl, le_refl _⟩
    | admin =>
      unfold handle_client_step at h
      dsimp only at h
      by_cases a1 : action = "list_courses_admin"
      · rw [if_pos a1] at h
        injection h with h; subst h
        exact fun c hc => ⟨c, hc, rfl, le_refl _⟩
      rw [if_neg a1] at h
      by_cases a2 : action = "create_course"
      · rw [if_pos a2] at h
        injection h with h; subst h
        intro c hc
        refine ⟨c, ?_, rfl, le_refl _⟩
        show c ∈ (handle_create_course st data).2.courses
        rcases create_cases st data with h2 | ⟨cap, _, h2⟩
        · rw [h2]; exact hc
        · rw [h2]; exact List.mem_append_left _ hc
      rw [if_neg a2] at h
      by_cases a3 : action = "update_course"
      · rw [if_pos a3] at h
        injection h with h; subst h
        intro c hc
        rcases update_cases st data with h2 | ⟨cap, c0, _, hf, hlt, h2⟩
        · refine ⟨c, ?_, rfl, le_refl _⟩
          show c ∈ (handle_update_course st data).2.courses
          rw [h2]; exact hc
        · refine ⟨if c.name = data.name then { c with capacity := cap } else c,
            ?_, ?_, ?_⟩
          · show _ ∈ (handle_update_course st data).2.courses
            rw [h2]
            exact List.mem_map_of_mem _ hc
          · by_cases hcn : c.name = data.name <;> simp [hcn]
          · by_cases hcn : c.name = data.name
            · obtain ⟨hc0, hc0n⟩ := findCourse_eq_some hf
              have : c = c0 :=
                course_name_inj hwf.1 hc hc0 (hcn.trans hc0n.symm)
              rw [if_pos hcn]
              subst this
              dsimp only
              omega
            · rw [if_neg hcn]
      rw [if_neg a3] at h
      by_cases a4 : action = "add_student"
      · rw [if_pos a4] at h
        injection h with h; subst h
        intro c hc
        refine ⟨c, ?_, rfl, le_refl _⟩
        show c ∈ (handle_add_student hash st data).2.courses
        rw [(add_student_components hash st data).1]
        exact hc
      rw [if_neg a4] at h
      by_cases a5 : action = "logout"
      · rw [if_pos a5] at h
        injection h with h; subst h
        exact fun c hc => ⟨c, hc, rfl, le_refl _⟩
      rw [if_neg a5] at h
      injection h with h; subst h
      exact fun c hc => ⟨c, hc, rfl, le_refl _⟩

/-- C9: `handle_update_course` answers `notFound` when no course has the
name, `notIncreasing` when the new capacity does not strictly exceed the
current one (store unchanged), and otherwise updates the capacity; and no
covered request-loop operation ever lowers an existing course's capacity. -/
theorem claim9_increase_capacity (st : Store) (name : String) (nc : Int)
    (hn : name ≠ "") :
    (findCourse st name = none →
      handle_update_course st { name := name, capacity := some nc }
        = (.notFound, st))
    ∧ (∀ c, findCourse st name = some c → nc ≤ c.capacity →
      handle_update_course st { name := name, capacity := some nc }
        = (.notIncreasing, st))
    ∧ (∀ c, findCourse st name = some c → c.capacity < nc →
      (handle_update_course st { name := name, capacity := some nc }).1 = .ok
        ∧ (handle_update_course st { name := name, capacity := some nc }).2
          = { st with courses := st.courses.map (fun c' =>
              if c'.name = name then { c' with capacity := nc } else c') })
    ∧ (∀ hash ss action data res, SchemaWF st →
        handle_client_step hash st ss action data = some res →
        ∀ c ∈ st.courses, ∃ c' ∈ res.1.courses,
          c'.name = c.name ∧ c.capacity ≤ c'.capacity) := by
  refine ⟨?_, ?_, ?_, ?_⟩
  · intro hf
    unfold handle_update_course
    dsimp only
    rw [if_neg hn, hf]
  · intro c hf hle
    unfold handle_update_course
    dsimp only
    rw [if_neg hn, hf]
    dsimp only
    rw [if_pos hle]
  · intro c hf hlt
    unfold handle_update_course
    dsimp only
    rw [if_neg hn, hf]
    dsimp only
    rw [if_neg (by omega : ¬ nc ≤ c.capacity)]
    exact ⟨rfl, rfl⟩
  · intro hash ss action data res hwf h
    exact step_capacity_mono hash st ss action data hwf res h

theorem claim9_witness :
    handle_update_course raceStore { name := "CS101", capacity := some 1 }
      = (.notIncreasing, raceStore) :=
  (claim9_increase_capacity raceStore "CS101" 1 (by decide)).2.1
    ⟨"CS101", "MWF 10:00-11:00", 1⟩ (by decide) (by decide)

/-- C8 counterexample: for an offering with capacity 1, a successful enroll
followed by the identical enroll yields `full`, not `alreadyRegistered`,
because the remaining-seats check runs before the duplicate check. -/
theorem claim8_counterexample :
    (handle_register_course raceStore { course_name := "CS101" } "alice").1 = .ok
    ∧ (handle_register_course
        (handle_register_course raceStore { course_name := "CS101" } "alice").2
        { course_name := "CS101" } "alice").1 = .full
    ∧ EnrollResult.full ≠ .alreadyRegistered := by
  refine ⟨by decide, by decide, by decide⟩

/-- C8 (amended): withdrawing a non-existent registration fails with
`notRegistered` and leaves the store unchanged; a successful withdraw
deletes exactly the one registration; and re-issuing an identical successful
enroll never inserts a second row — it fails with `full` when the first
enroll took the last remaining seat and with `alreadyRegistered` otherwise. -/
theorem claim8_withdraw_enroll_repeat (st : Store) (data : ReqData) (s : String)
    (hwf : SchemaWF st) (hne : data.course_name ≠ "") :
    ((s, data.course_name) ∉ st.regs →
      handle_withdraw_course st data s = (.notRegistered, st))
    ∧ ((s, data.course_name) ∈ st.regs →
      (handle_withdraw_course st data s).1 = .ok
      ∧ (s, data.course_name) ∉ (handle_withdraw_course st data s).2.regs
      ∧ (∀ r, r ≠ (s, data.course_name) →
          (r ∈ (handle_withdraw_course st data s).2.regs ↔ r ∈ st.regs))
      ∧ (handle_withdraw_course st data s).2.regs.length + 1 = st.regs.length
      ∧ (handle_withdraw_course st data s).2.courses = st.courses
      ∧ (handle_withdraw_course st data s).2.students = st.students)
    ∧ (∀ st', handle_register_course st data s = (.ok, st') →
        (handle_register_course st' data s).2 = st'
        ∧ ∃ c, findCourse st' data.course_name = some c
          ∧ (handle_register_course st' data s).1
            = (if remaining_seats st' c ≤ 0 then .full else .alreadyRegistered)) := by
  refine ⟨?_, ?_, ?_⟩
  · intro hmem
    unfold handle_withdraw_course
    rw [if_neg hne, if_neg hmem]
  · intro hmem
    have heq : handle_withdraw_course st data s
        = (.ok, { st with
            regs := st.regs.filter (fun r => decide (r ≠ (s, data.course_name))) }) := by
      unfold handle_withdraw_course
      rw [if_neg hne, if_pos hmem]
    rw [heq]
    refine ⟨rfl, by simp, ?_, length_filter_ne hmem hwf.2.2, rfl, rfl⟩
    intro r hr
    simp [List.mem_filter, hr]
  · intro st' hok
    rcases register_cases st data s with ⟨hno, _⟩ |
      ⟨_, heq, _, ⟨c, hf, hrem, _⟩, hnotreg, _⟩
    · exact absurd (by rw [hok]) hno
    have hst' : st' = { st with regs := st.regs ++ [(s, data.course_name)] } := by
      rw [hok] at heq
      exact heq
    have hcourses : st'.courses = st.courses := by rw [hst']
    have hf' : findCourse st' data.course_name = some c := by
      rw [findCourse_congr hcourses]
      exact hf
    have hmem' : (s, data.course_name) ∈ st'.regs := by
      rw [hst']
      simp
    by_cases hrem' : remaining_seats st' c ≤ 0
    · have := (register_spec st' data s hne).2.1 c hf' hrem'
      rw [this]
      exact ⟨rfl, c, hf', by rw [if_pos hrem']⟩
    · have := (register_spec st' data s hne).2.2.1 c hf' (by omega) hmem'
      rw [this]
      exact ⟨rfl, c, hf', by rw [if_neg hrem']⟩

theorem claim8_witness :
    (handle_withdraw_course wStore { course_name := "MATH1" } "alice").1 = .ok
    ∧ handle_withdraw_course wStore { course_name := "CHEM1" } "alice"
      = (.notRegistered, wStore) :=
  ⟨((claim8_withdraw_enroll_repeat wStore { course_name := "MATH1" } "alice"
      (by decide) (by decide)).2.1 (by decide)).1,
   (claim8_withdraw_enroll_repeat wStore { course_name := "CHEM1" } "alice"
      (by decide) (by decide)).1 (by decide)⟩

/-- C1: the enroll handler applies its checks in source order and returns
the first failure — `notFound` when the course does not exist; else `full`
when capacity minus the registration count is ≤ 0; else `alreadyRegistered`
when the pair is already registered; else `limitExceeded` when the student
already holds `MAX_COURSES_PER_STUDENT` registrations; else a
`scheduleConflict` naming the registered course that conflicts and is first
in ascending course-name order; else it inserts the registration.  The
store satisfies the schema keys and referential integrity (I5). -/
theorem claim1_enroll_check_order (st : Store) (s : String) (data : ReqData)
    (hwf : SchemaWF st) (h5 : I5 st) (hne : data.course_name ≠ "") :
    (findCourse st data.course_name = none →
      handle_register_course st data s = (.notFound, st))
    ∧ (∀ c, findCourse st data.course_name = some c →
        c.capacity - (regCount st c.name : Int) ≤ 0 →
        handle_register_course st data s = (.full, st))
    ∧ (∀ c, findCourse st data.course_name = some c →
        0 < c.capacity - (regCount st c.name : Int) →
        (s, data.course_name) ∈ st.regs →
        handle_register_course st data s = (.alreadyRegistered, st))
    ∧ (∀ c, findCourse st data.course_name = some c →
        0 < c.capacity - (regCount st c.name : Int) →
        (s, data.course_name) ∉ st.regs →
        MAX_COURSES_PER_STUDENT ≤ (st.regs.filter (fun r => r.1 = s)).length →
        handle_register_course st data s = (.limitExceeded, st))
    ∧ (∀ c rc, findCourse st data.course_name = some c →
        0 < c.capacity - (regCount st c.name : Int) →
        (s, data.course_name) ∉ st.regs →
        (st.regs.filter (fun r => r.1 = s)).length < MAX_COURSES_PER_STUDENT →
        rc ∈ st.courses → (s, rc.name) ∈ st.regs →
        check_schedule_overlap c.schedule rc.schedule = true →
        (∀ rc', rc' ∈ st.courses → (s, rc'.name) ∈ st.regs →
          check_schedule_overlap c.schedule rc'.schedule = true →
          rc.name.toList ≤ rc'.name.toList) →
        handle_register_course st data s
          = (.scheduleConflict rc.name rc.schedule, st))
    ∧ (∀ c, findCourse st data.course_name = some c →
        0 < c.capacity - (regCount st c.name : Int) →
        (s, data.course_name) ∉ st.regs →
        (st.regs.filter (fun r => r.1 = s)).length < MAX_COURSES_PER_STUDENT →
        (∀ rc, rc ∈ st.courses → (s, rc.name) ∈ st.regs →
          check_schedule_overlap c.schedule rc.schedule = false) →
        handle_register_course st data s
          = (.ok, { st with regs := st.regs ++ [(s, data.course_name)] })) := by
  have hjoin : (get_student_registered_courses st s).length
      = (st.regs.filter (fun r => r.1 = s)).length :=
    length_registered st s hwf.1 hwf.2.2 (fun r hr _ => (h5 r hr).2)
  have hspec := register_spec st data s hne
  refine ⟨hspec.1, ?_, ?_, ?_, ?_, ?_⟩
  · intro c hf hle
    exact hspec.2.1 c hf hle
  · intro c hf h0 hmem
    exact hspec.2.2.1 c hf h0 hmem
  · intro c hf h0 hmem hlim
    exact hspec.2.2.2.1 c hf h0 hmem (by rw [hjoin]; exact hlim)
  · intro c rc hf h0 hmem hlim hrcmem hrcreg hrcov hrcmin
    have hrc_in : rc ∈ get_student_registered_courses st s :=
      mem_registered.mpr ⟨hrcmem, hrcreg⟩
    cases hfind : (get_student_registered_courses st s).find?
        (fun x => check_schedule_overlap c.schedule x.schedule) with
    | none =>
      exact absurd hrcov (by simpa using List.find?_eq_none.mp hfind rc hrc_in)
    | some rc0 =>
      obtain ⟨hp0, hmin0⟩ := find?_sorted_min (sorted_registered st s) hfind
      have hrc0_in := List.mem_of_find?_eq_some hfind
      obtain ⟨hrc0_courses, hrc0_reg⟩ := mem_registered.mp hrc0_in
      have hle1 : rc.name.toList ≤ rc0.name.toList :=
        hrcmin rc0 hrc0_courses hrc0_reg (by simpa using hp0)
      have hle2 : courseLe rc0 rc := hmin0 rc hrc_in (by simpa using hrcov)
      have hnameeq : rc.name = rc0.name := String.ext (le_antisymm hle1 hle2)
      have heqc : rc = rc0 := course_name_inj hwf.1 hrcmem hrc0_courses hnameeq
      subst heqc
      exact hspec.2.2.2.2.1 c hf h0 hmem (by rw [hjoin]; exact hlim) rc hfind
  · intro c hf h0 hmem hlim hnoc
    have hfind : (get_student_registered_courses st s).find?
        (fun x => check_schedule_overlap c.schedule x.schedule) = none := by
      apply List.find?_eq_none.mpr
      intro x hx
      obtain ⟨hxc, hxr⟩ := mem_registered.mp hx
      simpa using hnoc x hxc hxr
    exact hspec.2.2.2.2.2 c hf h0 hmem (by rw [hjoin]; exact hlim) hfind

theorem claim1_witness :
    handle_register_course wStore { course_name := "CHEM1" } "alice"
      = (.ok, { wStore with regs := wStore.regs ++ [("alice", "CHEM1")] }) :=
  (claim1_enroll_check_order wStore "alice" { course_name := "CHEM1" }
      (by decide) (by decide) (by decide)).2.2.2.2.2
    ⟨"CHEM1", "TR 10:00-11:00", 30⟩ (by decide) (by decide) (by decide)
    (by decide) (by decide)

/-- C3: starting from any store satisfying the schema keys and I1-I5, every
sequence of enroll/withdraw operations issued by authenticated students
keeps I1-I5 after every step (every prefix of the sequence). -/
theorem claim3_invariants_hold (st : Store) (ops : List Op)
    (hwf : SchemaWF st) (hinv : Invariants st)
    (hauth : ∀ op ∈ ops, OpAuthorized st op) :
    ∀ n : Nat, Invariants (applyOps st (ops.take n)) := by
  intro n
  exact (applyOps_preserves (ops.take n) st hwf hinv
    (fun op hop => hauth op ((List.take_sublist n ops).subset hop))).2

theorem claim3_witness :
    Invariants (applyOps wStore
      ([Op.enroll "alice" "CHEM1", Op.withdraw "alice" "MATH1"].take 2)) := by
  refine claim3_invariants_hold wStore
    [Op.enroll "alice" "CHEM1", Op.withdraw "alice" "MATH1"]
    (by decide) ⟨by decide, by decide, ?_, ?_, by decide⟩ ?_ 2
  · intro s
    exact le_trans (List.length_filter_le _ _) (by decide)
  · intro s c1 hc1 c2 hc2 hne12 h1 h2
    simp only [wStore, List.mem_singleton, Prod.mk.injEq] at h1 h2
    exact absurd (h1.2.trans h2.2.symm) hne12
  · intro op hop
    simp only [List.mem_cons, List.not_mem_nil, or_false] at hop
    rcases hop with rfl | rfl
    · exact ⟨⟨"alice", "Alice", "h1"⟩, by simp [wStore], rfl⟩
    · trivial

end Registrar
